import Mathlib

/-!
# Verification of The-Furniture-Project routing core

Shallow embedding of the routing/packing engine of
`src/route_assignment.py` and the daily preference scheduler of
`src/tfp_smart_scheduler.py`, together with theorems settling the
frozen claims about the natural-language specification.

Conventions:
* Python dict records become Lean structures.
* Python strings stay `String`; size classes are strings because the
  source compares them against the literals "small"/"medium"/"large"
  and unknown size classes are behaviourally meaningful (stranding).
* Request types are the two-valued enum `RType` because
  `assign_all_routes` normalises every raw type to
  "pickup"/"delivery" before the pool enters the loop.
* Coordinates and distances are real numbers; floating-point rounding
  is not modelled.
-/

namespace TFP

/-- Request type after the orchestrator's normalisation
(`row['request_type'] if row['request_type'] in ['pickup','delivery']
else 'delivery'`). -/
inductive RType where
  | pickup
  | delivery
deriving DecidableEq, Repr

/-- A normalised furniture request, as built in
`RouteAssigner.assign_all_routes` (`src/route_assignment.py:276-282`). -/
structure Request where
  id : Nat
  address : String
  size : String
  rtype : RType
deriving DecidableEq, Repr

/-- One truck capacity configuration: slot counts per size class
(`src/route_assignment.py:25-30`). -/
structure Config where
  small : Nat
  medium : Nat
  large : Nat
deriving DecidableEq, Repr

/-- The fixed ordered configuration list `self.truck_configs`. -/
def truck_configs : List Config :=
  [⟨3, 0, 0⟩, ⟨2, 1, 0⟩, ⟨0, 2, 0⟩, ⟨0, 0, 1⟩]

/-- Normalisation of a raw CSV row into a pool request, mirroring
`assign_all_routes`: any request type other than "pickup"/"delivery"
becomes a delivery. -/
def mkRequest (id : Nat) (address size rawType : String) : Request :=
  { id := id, address := address, size := size,
    rtype := if rawType = "pickup" then RType.pickup else RType.delivery }

/-- Remove from `items` the first `k` requests whose size is `s`.
This is the net effect of the source's
`available.pop(0)` / `pickups.remove(item)` loop in `pack_truck`
(`src/route_assignment.py:109-114`): it pops the earliest size-`s`
entries, in order, up to the capacity. -/
def removeFirst (s : String) : Nat → List Request → List Request
  | _, [] => []
  | 0, l => l
  | k + 1, r :: rs =>
      if r.size = s then removeFirst s k rs
      else r :: removeFirst s (k + 1) rs

/-- Fill one truck configuration from the pool: pickups first, sizes
scanned large → medium → small, then deliveries into the remaining
slots, same size order (`src/route_assignment.py:96-127`).  The items
taken for a size are the earliest pool entries of that size, up to the
configuration's remaining slot count. -/
def fillTruck (c : Config) (reqs : List Request) : List Request :=
  let pickups := reqs.filter (fun r => r.rtype = RType.pickup)
  let deliveries := reqs.filter (fun r => r.rtype = RType.delivery)
  let tL := (pickups.filter (fun r => r.size = "large")).take c.large
  let p1 := removeFirst "large" c.large pickups
  let tM := (p1.filter (fun r => r.size = "medium")).take c.medium
  let p2 := removeFirst "medium" c.medium p1
  let tS := (p2.filter (fun r => r.size = "small")).take c.small
  let dL := (deliveries.filter (fun r => r.size = "large")).take (c.large - tL.length)
  let e1 := removeFirst "large" (c.large - tL.length) deliveries
  let dM := (e1.filter (fun r => r.size = "medium")).take (c.medium - tM.length)
  let e2 := removeFirst "medium" (c.medium - tM.length) e1
  let dS := (e2.filter (fun r => r.size = "small")).take (c.small - tS.length)
  tL ++ tM ++ tS ++ dL ++ dM ++ dS

/-- First-fit scan over a configuration list: return the first
configuration whose fill is non-empty, together with its load.
Python's `return [], {}` (no configuration fits) is modelled as
`none` (`src/route_assignment.py:96-131`). -/
def packGo (reqs : List Request) : List Config → Option (List Request × Config)
  | [] => none
  | c :: cs =>
      match fillTruck c reqs with
      | [] => packGo reqs cs
      | r :: rs => some (r :: rs, c)

/-- `RouteAssigner.pack_truck`: first-fit over `truck_configs`. -/
def pack_truck (reqs : List Request) : Option (List Request × Config) :=
  packGo reqs truck_configs

/-- Sequential identity-based removal of the assigned load from the
pool (`src/route_assignment.py:312-314`):
`for item in truck_load: requests = [r for r in requests if r['id'] != item['id']]`. -/
def removeAssigned (load : List Request) (reqs : List Request) : List Request :=
  load.foldl (fun acc item => acc.filter (fun r => r.id ≠ item.id)) reqs

/-! ### Concrete pools used in scenario and witness statements -/

/-- Scenario request: first small pickup. -/
def c3req1 : Request := ⟨0, "100 A St", "small", RType.pickup⟩

/-- Scenario request: second small pickup. -/
def c3req2 : Request := ⟨1, "200 B St", "small", RType.pickup⟩

/-- Scenario request: medium delivery. -/
def c3req3 : Request := ⟨2, "300 C St", "medium", RType.delivery⟩

/-- Scenario pool `[{small,pickup},{small,pickup},{medium,delivery}]`. -/
def c3pool : List Request := [c3req1, c3req2, c3req3]

/-- A small pickup used to exercise the packer's capacity bound. -/
def c2reqA : Request := ⟨0, "100 A St", "small", RType.pickup⟩

/-- A medium delivery used to exercise the packer's capacity bound. -/
def c2reqB : Request := ⟨1, "200 B St", "medium", RType.delivery⟩

/-- Pool for the capacity-bound witness. -/
def c2pool : List Request := [c2reqA, c2reqB]

/-- Pool of recognised-size requests for the drain witness. -/
def c1pool : List Request :=
  [⟨0, "100 A St", "small", RType.pickup⟩, ⟨1, "200 B St", "large", RType.delivery⟩]

/-- A request whose size class matches no configuration slot. -/
def c4bad : Request := ⟨7, "300 C St", "oversized", RType.delivery⟩

/-- A single request used to exercise the route sequencer. -/
def c5req : Request := ⟨3, "123 Main St, Omaha, 68104", "small", RType.pickup⟩

/-- First of two distinct pool entries sharing an id. -/
def c9dup1 : Request := ⟨5, "100 A St", "small", RType.pickup⟩

/-- Second of two distinct pool entries sharing the same id. -/
def c9dup2 : Request := ⟨5, "200 B St", "small", RType.pickup⟩

noncomputable section

/-- `self.depot` — Omaha center, all routes start/end here. -/
def depot : ℝ × ℝ := (41.2565, -95.9345)

/-- Python `math.radians`. -/
def radiansOf (x : ℝ) : ℝ := x * (Real.pi / 180)

/-- `RouteAssigner.haversine_distance` (`src/route_assignment.py:41-55`):
great-circle distance in miles between two points given in degrees. -/
def haversine_distance (lat1 lon1 lat2 lon2 : ℝ) : ℝ :=
  let l1 := radiansOf lat1
  let o1 := radiansOf lon1
  let l2 := radiansOf lat2
  let o2 := radiansOf lon2
  let dlat := l2 - l1
  let dlon := o2 - o1
  let a := Real.sin (dlat / 2) ^ 2 +
    Real.cos l1 * Real.cos l2 * Real.sin (dlon / 2) ^ 2
  2 * Real.arcsin (Real.sqrt a) * 3959

/-- The fixed zip → coordinates table of `RouteAssigner.get_coordinates`. -/
def zip_coords : List (String × (ℝ × ℝ)) :=
  [("68104", (41.3114, -95.9208)), ("68111", (41.3456, -95.9017)),
   ("68134", (41.2072, -96.1003)), ("68106", (41.2033, -95.9778)),
   ("68127", (41.1544, -96.0142)), ("68130", (40.8136, -96.6917)),
   ("68137", (41.1836, -95.8975)), ("68108", (41.2203, -95.8608)),
   ("68114", (41.2203, -95.8608)), ("68124", (41.2500, -96.0500)),
   ("68132", (41.2203, -95.8608)), ("68131", (41.2978, -96.0419)),
   ("51501", (41.2619, -95.8608))]

/-- `RouteAssigner.get_coordinates`: scan the whitespace-split address
tokens, strip commas, return the first token found in the zip table;
fall back to the depot (`src/route_assignment.py:57-82`). -/
def get_coordinates (address : String) : ℝ × ℝ :=
  match (address.splitOn " ").findSome?
      (fun part => (zip_coords.find? (fun e => e.1 = (part.replace "," ""))).map (·.2)) with
  | some c => c
  | none => depot

/-- The `'type'` field of a route stop dict: request stops keep their
request type, depot bookends carry `'depot'`. -/
inductive StopType where
  | pickup
  | delivery
  | depot
deriving DecidableEq, Repr

/-- A stop dict as used in routes: a request enriched with
coordinates, or a synthetic depot bookend.  `marker` models the
`'stop_type'` key, present only on depot stops. -/
structure Stop where
  marker : Option String
  address : String
  size : String
  stype : StopType
  id : Option Nat
  coordinates : ℝ × ℝ

instance : DecidableEq Stop := Classical.decEq _

/-- Coordinate enrichment performed by `optimize_route_order`
(`item['coordinates'] = self.get_coordinates(item['address'])`). -/
def toStop (r : Request) : Stop :=
  { marker := none, address := r.address, size := r.size,
    stype := match r.rtype with
      | RType.pickup => StopType.pickup
      | RType.delivery => StopType.delivery,
    id := some r.id, coordinates := get_coordinates r.address }

/-- The synthetic depot-start stop (`src/route_assignment.py:166-172`). -/
def depotStart : Stop :=
  { marker := some "depot_start", address := "Depot - Start", size := "depot",
    stype := StopType.depot, id := none, coordinates := depot }

/-- The synthetic depot-end stop (`src/route_assignment.py:181-187`). -/
def depotEnd : Stop :=
  { marker := some "depot_end", address := "Depot - Return", size := "depot",
    stype := StopType.depot, id := none, coordinates := depot }

/-- `min(remaining, key=...)` with the haversine key: Python `min`
keeps the first minimal element, i.e. a later element replaces the
current best only when strictly smaller. -/
def selectNearest (pos : ℝ × ℝ) (x : Stop) (xs : List Stop) : Stop :=
  xs.foldl (fun best y =>
    if haversine_distance pos.1 pos.2 y.coordinates.1 y.coordinates.2 <
       haversine_distance pos.1 pos.2 best.coordinates.1 best.coordinates.2
    then y else best) x

/-- The greedy loop of `RouteAssigner.nearest_neighbor_route`
(`src/route_assignment.py:210-219`), fuelled by the list length:
repeatedly pick the nearest remaining stop, remove it, advance. -/
def nnLoop : Nat → (ℝ × ℝ) → List Stop → List Stop
  | 0, _, _ => []
  | _ + 1, _, [] => []
  | fuel + 1, pos, x :: xs =>
      let nearest := selectNearest pos x xs
      nearest :: nnLoop fuel nearest.coordinates ((x :: xs).erase nearest)

/-- `RouteAssigner.nearest_neighbor_route`: lists of length ≤ 1 are
returned unchanged; otherwise run the greedy loop from the depot. -/
def nearest_neighbor_route (stops : List Stop) : List Stop :=
  if stops.length ≤ 1 then stops else nnLoop stops.length depot stops

/-- `RouteAssigner.optimize_route_order` (`src/route_assignment.py:133-189`):
empty load → empty route; otherwise depot-start, nearest-neighbour
ordered pickups, nearest-neighbour ordered deliveries, depot-end. -/
def optimize_route_order (truck_load : List Request) : List Stop :=
  match truck_load with
  | [] => []
  | _ :: _ =>
      let pickups := (truck_load.filter (fun r => r.rtype = RType.pickup)).map toStop
      let deliveries := (truck_load.filter (fun r => r.rtype = RType.delivery)).map toStop
      depotStart :: (nearest_neighbor_route pickups ++
        (nearest_neighbor_route deliveries ++ [depotEnd]))

/-- Service time added on arrival at a stop
(`src/route_assignment.py:248-252`): 30 min at a pickup, 20 min at a
delivery, nothing at a depot stop. -/
def serviceOf (s : Stop) : ℝ :=
  match s.stype with
  | StopType.pickup => 30
  | StopType.delivery => 20
  | StopType.depot => 0

/-- One iteration of the metrics loop: add the leg distance, the
arrival stop's service time, and travel time at 2.5 min/mile. -/
def metricsStep (acc : ℝ × ℝ) (pr : Stop × Stop) : ℝ × ℝ :=
  let d := haversine_distance pr.1.coordinates.1 pr.1.coordinates.2
    pr.2.coordinates.1 pr.2.coordinates.2
  (acc.1 + d, acc.2 + serviceOf pr.2 + d * 2.5)

/-- `RouteAssigner.calculate_route_metrics` (`src/route_assignment.py:223-257`):
walk consecutive stop pairs accumulating distance and time from zero. -/
def calculate_route_metrics (route : List Stop) : ℝ × ℝ :=
  (route.zip route.tail).foldl metricsStep (0, 0)

/-- A truck assignment record (`src/route_assignment.py:300-308`).
The source rounds `total_distance`/`total_time` for presentation;
the rounding is display-only and not modelled. -/
structure Truck where
  truck_id : String
  config_label : String
  route : List Stop
  total_distance : ℝ
  total_time : ℝ
  pickup_count : Nat
  delivery_count : Nat

/-- The `while requests:` loop of `RouteAssigner.assign_all_routes`
(`src/route_assignment.py:287-314`), fuelled by the pool length (each
productive iteration removes at least one request, so this fuel is
never exhausted).  Returns the trucks together with the final pending
pool; the source returns only the trucks and discards the pool. -/
def assignLoopFuel : Nat → Nat → List Request → List Truck × List Request
  | 0, _, reqs => ([], reqs)
  | _ + 1, _, [] => ([], [])
  | fuel + 1, tid, r :: rs =>
      match pack_truck (r :: rs) with
      | none => ([], r :: rs)
      | some (load, c) =>
          let route := optimize_route_order load
          let m := calculate_route_metrics route
          let truck : Truck :=
            { truck_id := "ROUTE_" ++ toString tid
              config_label := toString c.small ++ "S+" ++ toString c.medium ++ "M+" ++
                toString c.large ++ "L"
              route := route
              total_distance := m.1
              total_time := m.2
              pickup_count := (route.filter (fun s => s.stype = StopType.pickup)).length
              delivery_count := (route.filter (fun s => s.stype = StopType.delivery)).length }
          let rest := assignLoopFuel fuel (tid + 1) (removeAssigned load (r :: rs))
          (truck :: rest.1, rest.2)

/-- `RouteAssigner.assign_all_routes` on an already-normalised pool:
run the assignment loop to completion. -/
def assign_all_routes (reqs : List Request) : List Truck × List Request :=
  assignLoopFuel reqs.length 1 reqs

/-- Sum of leg distances over consecutive stop pairs — the spec's
words for the total-distance metric. -/
def specTotalDistance (route : List Stop) : ℝ :=
  ((route.zip route.tail).map (fun pr =>
    haversine_distance pr.1.coordinates.1 pr.1.coordinates.2
      pr.2.coordinates.1 pr.2.coordinates.2)).sum

/-- Per-segment travel time at 2.5 min/mile plus arrival service time,
summed over consecutive stop pairs — the spec's words for the
total-time metric. -/
def specTotalTime (route : List Stop) : ℝ :=
  ((route.zip route.tail).map (fun pr =>
    haversine_distance pr.1.coordinates.1 pr.1.coordinates.2
      pr.2.coordinates.1 pr.2.coordinates.2 * 2.5 + serviceOf pr.2)).sum

end

/-! ## Daily preference scheduler (`src/tfp_smart_scheduler.py`) -/

/-- A client scheduling-preference row as consumed by
`TFPSmartScheduler.schedule_daily_deliveries`.  Only the columns the
scheduler reads are modelled; the lat/lon columns attached by
`load_client_preferences` are a function of the address and are
recomputed at use sites. -/
structure Pref where
  client_name : String
  preferred_date : String
  preference_rank : Nat
  address : String
deriving DecidableEq, Repr

/-- `self.max_deliveries_per_day`. -/
def max_deliveries_per_day : Nat := 4

/-- Rank comparison used by `sort_values('preference_rank')`. -/
def rankLE (a b : Pref) : Prop := a.preference_rank ≤ b.preference_rank

instance : DecidableRel rankLE := fun a b => Nat.decLe a.preference_rank b.preference_rank

instance : IsTotal Pref rankLE := ⟨fun _ _ => Nat.le_total _ _⟩

instance : IsTrans Pref rankLE := ⟨fun _ _ _ h h' => Nat.le_trans h h'⟩

/-- The greedy acceptance loop of `schedule_daily_deliveries`
(`src/tfp_smart_scheduler.py:70-76`): walk the rank-sorted rows, stop
once `max_deliveries_per_day` are scheduled, skip clients already
scheduled. -/
def acceptLoop (maxD : Nat) : List Pref → List Pref → List String → List Pref
  | [], acc, _ => acc
  | r :: rest, acc, seen =>
      if maxD ≤ acc.length then acc
      else if r.client_name ∈ seen then acceptLoop maxD rest acc seen
      else acceptLoop maxD rest (acc ++ [r]) (r.client_name :: seen)

/-- The selection phase of `TFPSmartScheduler.schedule_daily_deliveries`
(`src/tfp_smart_scheduler.py:54-79`): filter rows for the target date,
sort by preference rank ascending, greedily accept up to the daily cap
with client deduplication.  (`sort_values` ties are broken by an
unspecified order in the source; the stable `insertionSort` fixes one
such order, and the proved facts are tie-independent.) -/
def selectDaily (prefs : List Pref) (target_date : String) : List Pref :=
  match prefs.filter (fun p => p.preferred_date = target_date) with
  | [] => []
  | q :: qs => acceptLoop max_deliveries_per_day
      (List.insertionSort rankLE (q :: qs)) [] []

/-- Target date of the daily-scheduler scenario. -/
def scenDate : String := "2025-03-01"

/-- Scenario candidate with preference rank 1. -/
def scen1 : Pref := ⟨"Client1", "2025-03-01", 1, "100 A St"⟩

/-- Scenario candidate with preference rank 1. -/
def scen2 : Pref := ⟨"Client2", "2025-03-01", 1, "200 B St"⟩

/-- Scenario candidate with preference rank 1. -/
def scen3 : Pref := ⟨"Client3", "2025-03-01", 1, "300 C St"⟩

/-- Scenario candidate with preference rank 2. -/
def scen4 : Pref := ⟨"Client4", "2025-03-01", 2, "400 D St"⟩

/-- Scenario candidate with preference rank 2. -/
def scen5 : Pref := ⟨"Client5", "2025-03-01", 2, "500 E St"⟩

/-- Scenario candidate with preference rank 3. -/
def scen6 : Pref := ⟨"Client6", "2025-03-01", 3, "600 F St"⟩

/-- Six distinct-client candidates with ranks `[1,1,1,2,2,3]`. -/
def scenPrefs : List Pref := [scen1, scen2, scen3, scen4, scen5, scen6]

noncomputable section

/-- `self.warehouse` of the smart scheduler. -/
def warehouse : ℝ × ℝ := (41.3, -96.0)

/-- The scheduler's zip → coordinates table (`src/tfp_smart_scheduler.py:19-25`). -/
def sched_zip_coords : List (String × (ℝ × ℝ)) :=
  [("68104", (41.3114, -95.9208)), ("68111", (41.3456, -95.9017)),
   ("68134", (41.2072, -96.1003)), ("68106", (41.2033, -95.9778)),
   ("68127", (41.1544, -96.0142)), ("68137", (41.1836, -95.8975)),
   ("68108", (41.2203, -95.8608)), ("68114", (41.2203, -95.8608)),
   ("68124", (41.2500, -96.0500)), ("68132", (41.2203, -95.8608))]

/-- `TFPSmartScheduler.get_coordinates`: first table entry whose zip
occurs as a substring of the address; warehouse fallback. -/
def schedGetCoords (address : String) : ℝ × ℝ :=
  match sched_zip_coords.find? (fun e => address.containsSubstr e.1) with
  | some e => e.2
  | none => warehouse

/-- geopy's `great_circle(p, q).miles`: the central angle between the
two points (geopy computes it with an atan2 form of the same
spherical law) times its earth radius 6371.009 km, converted to miles. -/
def great_circle_miles (p q : ℝ × ℝ) : ℝ :=
  let l1 := radiansOf p.1
  let o1 := radiansOf p.2
  let l2 := radiansOf q.1
  let o2 := radiansOf q.2
  let a := Real.sin ((l2 - l1) / 2) ^ 2 +
    Real.cos l1 * Real.cos l2 * Real.sin ((o2 - o1) / 2) ^ 2
  2 * Real.arcsin (Real.sqrt a) * (6371.009 / 1.609344)

/-- Coordinates attached to a preference row by
`load_client_preferences`. -/
def prefCoords (p : Pref) : ℝ × ℝ := schedGetCoords p.address

/-- `distances.idxmin()` over the remaining rows: pandas returns the
first row attaining the minimum, so a later row replaces the current
best only when strictly closer. -/
def schedSelectNearest (pos : ℝ × ℝ) (x : Pref) (xs : List Pref) : Pref :=
  xs.foldl (fun best y =>
    if great_circle_miles pos (prefCoords y) < great_circle_miles pos (prefCoords best)
    then y else best) x

/-- The greedy loop of `TFPSmartScheduler.optimize_delivery_route`
(`src/tfp_smart_scheduler.py:97-111`), fuelled by the list length. -/
def schedNNLoop : Nat → (ℝ × ℝ) → List Pref → List Pref
  | 0, _, _ => []
  | _ + 1, _, [] => []
  | fuel + 1, pos, x :: xs =>
      let nearest := schedSelectNearest pos x xs
      nearest :: schedNNLoop fuel (prefCoords nearest) ((x :: xs).erase nearest)

/-- `TFPSmartScheduler.optimize_delivery_route`: length ≤ 1 returned
unchanged, otherwise nearest-neighbour from the warehouse. -/
def optimize_delivery_route (deliveries : List Pref) : List Pref :=
  if deliveries.length ≤ 1 then deliveries
  else schedNNLoop deliveries.length warehouse deliveries

/-- `TFPSmartScheduler.schedule_daily_deliveries`: greedy rank-ordered
selection followed by route optimisation.  (The source's early
returns of empty data frames coincide with `optimize_delivery_route`
applied to an empty selection.) -/
def schedule_daily_deliveries (prefs : List Pref) (target_date : String) : List Pref :=
  optimize_delivery_route (selectDaily prefs target_date)

end

/-- Number of requests of size class `s` in a load. -/
def countSize (s : String) (l : List Request) : Nat :=
  (l.filter (fun r => r.size = s)).length

/-- The non-depot stops of a sequenced route. -/
noncomputable def nonDepotStops (route : List Stop) : List Stop :=
  route.filter (fun s => s.stype ≠ StopType.depot)

/-- The pickup-phase items of size `s` taken under configuration
slot count `cap`. -/
def phasePick (s : String) (cap : Nat) (reqs : List Request) : List Request :=
  (((reqs.filter (fun r => r.rtype = RType.pickup)).filter
    (fun r => r.size = s)).take cap)

/-- The delivery-phase items of size `s` taken into `cap` remaining
slots. -/
def phaseDel (s : String) (cap : Nat) (reqs : List Request) : List Request :=
  (((reqs.filter (fun r => r.rtype = RType.delivery)).filter
    (fun r => r.size = s)).take cap)

/-! ## Lemmas about the packer -/

theorem removeFirst_filter_ne (s t : String) (hst : s ≠ t) :
    ∀ (k : Nat) (l : List Request),
      (removeFirst s k l).filter (fun r => r.size = t) =
        l.filter (fun r => r.size = t) := by
  intro k l
  induction l generalizing k with
  | nil => cases k <;> rfl
  | cons r rs ih =>
      cases k with
      | zero => rfl
      | succ k =>
          by_cases h : r.size = s
          · have ht : ¬ (r.size = t) := fun hc => hst (h ▸ hc)
            simp [removeFirst, h, List.filter_cons, ht, hst, ih]
          · simp [removeFirst, h, List.filter_cons, ih]

theorem mem_of_mem_removeFirst (s : String) :
    ∀ (k : Nat) (l : List Request) (x : Request),
      x ∈ removeFirst s k l → x ∈ l := by
  intro k l
  induction l generalizing k with
  | nil => intro x hx; cases k <;> exact hx
  | cons r rs ih =>
      intro x hx
      cases k with
      | zero => exact hx
      | succ k =>
          by_cases h : r.size = s
          · simp only [removeFirst, if_pos h] at hx
            exact List.mem_cons_of_mem _ (ih k x hx)
          · simp only [removeFirst, if_neg h, List.mem_cons] at hx
            rcases hx with hx | hx
            · exact hx ▸ List.mem_cons_self _ _
            · exact List.mem_cons_of_mem _ (ih (k + 1) x hx)

theorem mem_take_filter_size {s : String} {k : Nat} {l : List Request} {x : Request}
    (hx : x ∈ (l.filter (fun r => r.size = s)).take k) :
    x.size = s ∧ x ∈ l := by
  have h1 := List.mem_of_mem_take hx
  have h2 := List.mem_filter.1 h1
  exact ⟨by simpa using h2.2, h2.1⟩

theorem fillTruck_eq (c : Config) (reqs : List Request) :
    fillTruck c reqs =
      phasePick "large" c.large reqs ++ phasePick "medium" c.medium reqs ++
      phasePick "small" c.small reqs ++
      phaseDel "large" (c.large - (phasePick "large" c.large reqs).length) reqs ++
      phaseDel "medium" (c.medium - (phasePick "medium" c.medium reqs).length) reqs ++
      phaseDel "small" (c.small - (phasePick "small" c.small reqs).length) reqs := by
  simp only [fillTruck, phasePick, phaseDel,
    removeFirst_filter_ne "large" "medium" (by decide),
    removeFirst_filter_ne "medium" "small" (by decide),
    removeFirst_filter_ne "large" "small" (by decide),
    List.append_assoc]

theorem mem_phasePick {s : String} {cap : Nat} {reqs : List Request} {x : Request}
    (hx : x ∈ phasePick s cap reqs) :
    x.size = s ∧ x ∈ reqs ∧ x.rtype = RType.pickup := by
  have h1 := List.mem_of_mem_take hx
  have h2 := List.mem_filter.1 h1
  have h3 := List.mem_filter.1 h2.1
  exact ⟨by simpa using h2.2, h3.1, by simpa using h3.2⟩

theorem mem_phaseDel {s : String} {cap : Nat} {reqs : List Request} {x : Request}
    (hx : x ∈ phaseDel s cap reqs) :
    x.size = s ∧ x ∈ reqs ∧ x.rtype = RType.delivery := by
  have h1 := List.mem_of_mem_take hx
  have h2 := List.mem_filter.1 h1
  have h3 := List.mem_filter.1 h2.1
  exact ⟨by simpa using h2.2, h3.1, by simpa using h3.2⟩

theorem filter_phasePick_self (s : String) (cap : Nat) (reqs : List Request) :
    (phasePick s cap reqs).filter (fun r => r.size = s) = phasePick s cap reqs :=
  List.filter_eq_self.2 fun x hx => by simp [(mem_phasePick hx).1]

theorem filter_phaseDel_self (s : String) (cap : Nat) (reqs : List Request) :
    (phaseDel s cap reqs).filter (fun r => r.size = s) = phaseDel s cap reqs :=
  List.filter_eq_self.2 fun x hx => by simp [(mem_phaseDel hx).1]

theorem filter_phasePick_ne {s t : String} (hst : s ≠ t) (cap : Nat) (reqs : List Request) :
    (phasePick s cap reqs).filter (fun r => r.size = t) = [] :=
  List.filter_eq_nil_iff.2 fun x hx => by
    simp [(mem_phasePick hx).1, hst]

theorem filter_phaseDel_ne {s t : String} (hst : s ≠ t) (cap : Nat) (reqs : List Request) :
    (phaseDel s cap reqs).filter (fun r => r.size = t) = [] :=
  List.filter_eq_nil_iff.2 fun x hx => by
    simp [(mem_phaseDel hx).1, hst]

theorem fillTruck_filter_small (c : Config) (reqs : List Request) :
    (fillTruck c reqs).filter (fun r => r.size = "small") =
      phasePick "small" c.small reqs ++
      phaseDel "small" (c.small - (phasePick "small" c.small reqs).length) reqs := by
  rw [fillTruck_eq]
  simp [List.filter_append, filter_phasePick_self, filter_phaseDel_self,
    filter_phasePick_ne (show "large" ≠ "small" by decide),
    filter_phasePick_ne (show "medium" ≠ "small" by decide),
    filter_phaseDel_ne (show "large" ≠ "small" by decide),
    filter_phaseDel_ne (show "medium" ≠ "small" by decide)]

theorem fillTruck_filter_medium (c : Config) (reqs : List Request) :
    (fillTruck c reqs).filter (fun r => r.size = "medium") =
      phasePick "medium" c.medium reqs ++
      phaseDel "medium" (c.medium - (phasePick "medium" c.medium reqs).length) reqs := by
  rw [fillTruck_eq]
  simp [List.filter_append, filter_phasePick_self, filter_phaseDel_self,
    filter_phasePick_ne (show "large" ≠ "medium" by decide),
    filter_phasePick_ne (show "small" ≠ "medium" by decide),
    filter_phaseDel_ne (show "large" ≠ "medium" by decide),
    filter_phaseDel_ne (show "small" ≠ "medium" by decide)]

theorem fillTruck_filter_large (c : Config) (reqs : List Request) :
    (fillTruck c reqs).filter (fun r => r.size = "large") =
      phasePick "large" c.large reqs ++
      phaseDel "large" (c.large - (phasePick "large" c.large reqs).length) reqs := by
  rw [fillTruck_eq]
  simp [List.filter_append, filter_phasePick_self, filter_phaseDel_self,
    filter_phasePick_ne (show "medium" ≠ "large" by decide),
    filter_phasePick_ne (show "small" ≠ "large" by decide),
    filter_phaseDel_ne (show "medium" ≠ "large" by decide),
    filter_phaseDel_ne (show "small" ≠ "large" by decide)]

theorem countSize_fillTruck_small (c : Config) (reqs : List Request) :
    countSize "small" (fillTruck c reqs) ≤ c.small := by
  have hp : (phasePick "small" c.small reqs).length ≤ c.small := by
    simp only [phasePick]; exact
      (List.length_take_le c.small
        ((reqs.filter (fun r => r.rtype = RType.pickup)).filter (fun r => r.size = "small")))
  have hd : (phaseDel "small" (c.small - (phasePick "small" c.small reqs).length) reqs).length ≤
      c.small - (phasePick "small" c.small reqs).length := by
    simp only [phaseDel]; exact
      (List.length_take_le (c.small - (phasePick "small" c.small reqs).length)
        ((reqs.filter (fun r => r.rtype = RType.delivery)).filter (fun r => r.size = "small")))
  have := fillTruck_filter_small c reqs
  simp only [countSize, this, List.length_append]
  omega

theorem countSize_fillTruck_medium (c : Config) (reqs : List Request) :
    countSize "medium" (fillTruck c reqs) ≤ c.medium := by
  have hp : (phasePick "medium" c.medium reqs).length ≤ c.medium := by
    simp only [phasePick]; exact
      (List.length_take_le c.medium
        ((reqs.filter (fun r => r.rtype = RType.pickup)).filter (fun r => r.size = "medium")))
  have hd : (phaseDel "medium" (c.medium - (phasePick "medium" c.medium reqs).length) reqs).length ≤
      c.medium - (phasePick "medium" c.medium reqs).length := by
    simp only [phaseDel]; exact
      (List.length_take_le (c.medium - (phasePick "medium" c.medium reqs).length)
        ((reqs.filter (fun r => r.rtype = RType.delivery)).filter (fun r => r.size = "medium")))
  have := fillTruck_filter_medium c reqs
  simp only [countSize, this, List.length_append]
  omega

theorem countSize_fillTruck_large (c : Config) (reqs : List Request) :
    countSize "large" (fillTruck c reqs) ≤ c.large := by
  have hp : (phasePick "large" c.large reqs).length ≤ c.large := by
    simp only [phasePick]; exact
      (List.length_take_le c.large
        ((reqs.filter (fun r => r.rtype = RType.pickup)).filter (fun r => r.size = "large")))
  have hd : (phaseDel "large" (c.large - (phasePick "large" c.large reqs).length) reqs).length ≤
      c.large - (phasePick "large" c.large reqs).length := by
    simp only [phaseDel]; exact
      (List.length_take_le (c.large - (phasePick "large" c.large reqs).length)
        ((reqs.filter (fun r => r.rtype = RType.delivery)).filter (fun r => r.size = "large")))
  have := fillTruck_filter_large c reqs
  simp only [countSize, this, List.length_append]
  omega

theorem packGo_none_iff (reqs : List Request) :
    ∀ cs : List Config, packGo reqs cs = none ↔ ∀ c ∈ cs, fillTruck c reqs = [] := by
  intro cs
  induction cs with
  | nil => simp [packGo]
  | cons c cs ih =>
      cases h : fillTruck c reqs with
      | nil => simp [packGo, h, ih]
      | cons x xs => simp [packGo, h]

theorem packGo_some (reqs : List Request) :
    ∀ (cs : List Config) (load : List Request) (c : Config),
      packGo reqs cs = some (load, c) →
        load = fillTruck c reqs ∧ c ∈ cs ∧ load ≠ [] := by
  intro cs
  induction cs with
  | nil => intro load c h; simp [packGo] at h
  | cons c' cs ih =>
      intro load c h
      cases hf : fillTruck c' reqs with
      | nil =>
          simp only [packGo, hf] at h
          obtain ⟨h1, h2, h3⟩ := ih load c h
          exact ⟨h1, List.mem_cons_of_mem _ h2, h3⟩
      | cons x xs =>
          simp only [packGo, hf, Option.some.injEq, Prod.mk.injEq] at h
          obtain ⟨h1, h2⟩ := h
          subst h2
          refine ⟨by rw [← h1, hf], List.mem_cons_self _ _, ?_⟩
          rw [← h1]
          exact List.cons_ne_nil x xs

theorem packGo_first (reqs : List Request) (c : Config) (cs : List Config)
    (h : fillTruck c reqs ≠ []) :
    packGo reqs (c :: cs) = some (fillTruck c reqs, c) := by
  cases hf : fillTruck c reqs with
  | nil => exact absurd hf h
  | cons x xs => simp [packGo, hf]

theorem fillTruck_ne_nil_of_filter {c : Config} {reqs : List Request} {s : String}
    (h : (fillTruck c reqs).filter (fun r => r.size = s) ≠ []) :
    fillTruck c reqs ≠ [] := by
  intro hnil
  rw [hnil] at h
  exact h rfl

theorem take_ne_nil_of {l : List Request} {n : Nat} (hn : n ≠ 0) (hl : l ≠ []) :
    l.take n ≠ [] := by
  cases l with
  | nil => exact absurd rfl hl
  | cons x xs =>
      cases n with
      | zero => exact absurd rfl hn
      | succ n => simp

theorem fillTruck_ne_nil_small {c : Config} {reqs : List Request} {x : Request}
    (hc : c.small ≠ 0) (hx : x ∈ reqs) (hs : x.size = "small") :
    fillTruck c reqs ≠ [] := by
  apply fillTruck_ne_nil_of_filter (s := "small")
  rw [fillTruck_filter_small]
  cases hr : x.rtype with
  | pickup =>
      have hmem : x ∈ (reqs.filter (fun r => r.rtype = RType.pickup)).filter
          (fun r => r.size = "small") := by
        simp [List.mem_filter, hx, hr, hs]
      have : phasePick "small" c.small reqs ≠ [] :=
        take_ne_nil_of hc (List.ne_nil_of_mem hmem)
      exact fun hnil => this (List.append_eq_nil.1 hnil).1
  | delivery =>
      have hmem : x ∈ (reqs.filter (fun r => r.rtype = RType.delivery)).filter
          (fun r => r.size = "small") := by
        simp [List.mem_filter, hx, hr, hs]
      by_cases hp : phasePick "small" c.small reqs = []
      · have hlen : (phasePick "small" c.small reqs).length = 0 := by rw [hp]; rfl
        have : phaseDel "small" (c.small - (phasePick "small" c.small reqs).length) reqs ≠ [] := by
          rw [hlen, Nat.sub_zero]
          exact take_ne_nil_of hc (List.ne_nil_of_mem hmem)
        exact fun hnil => this (List.append_eq_nil.1 hnil).2
      · exact fun hnil => hp (List.append_eq_nil.1 hnil).1

theorem fillTruck_ne_nil_medium {c : Config} {reqs : List Request} {x : Request}
    (hc : c.medium ≠ 0) (hx : x ∈ reqs) (hs : x.size = "medium") :
    fillTruck c reqs ≠ [] := by
  apply fillTruck_ne_nil_of_filter (s := "medium")
  rw [fillTruck_filter_medium]
  cases hr : x.rtype with
  | pickup =>
      have hmem : x ∈ (reqs.filter (fun r => r.rtype = RType.pickup)).filter
          (fun r => r.size = "medium") := by
        simp [List.mem_filter, hx, hr, hs]
      have : phasePick "medium" c.medium reqs ≠ [] :=
        take_ne_nil_of hc (List.ne_nil_of_mem hmem)
      exact fun hnil => this (List.append_eq_nil.1 hnil).1
  | delivery =>
      have hmem : x ∈ (reqs.filter (fun r => r.rtype = RType.delivery)).filter
          (fun r => r.size = "medium") := by
        simp [List.mem_filter, hx, hr, hs]
      by_cases hp : phasePick "medium" c.medium reqs = []
      · have hlen : (phasePick "medium" c.medium reqs).length = 0 := by rw [hp]; rfl
        have : phaseDel "medium" (c.medium - (phasePick "medium" c.medium reqs).length) reqs ≠ [] := by
          rw [hlen, Nat.sub_zero]
          exact take_ne_nil_of hc (List.ne_nil_of_mem hmem)
        exact fun hnil => this (List.append_eq_nil.1 hnil).2
      · exact fun hnil => hp (List.append_eq_nil.1 hnil).1

theorem fillTruck_ne_nil_large {c : Config} {reqs : List Request} {x : Request}
    (hc : c.large ≠ 0) (hx : x ∈ reqs) (hs : x.size = "large") :
    fillTruck c reqs ≠ [] := by
  apply fillTruck_ne_nil_of_filter (s := "large")
  rw [fillTruck_filter_large]
  cases hr : x.rtype with
  | pickup =>
      have hmem : x ∈ (reqs.filter (fun r => r.rtype = RType.pickup)).filter
          (fun r => r.size = "large") := by
        simp [List.mem_filter, hx, hr, hs]
      have : phasePick "large" c.large reqs ≠ [] :=
        take_ne_nil_of hc (List.ne_nil_of_mem hmem)
      exact fun hnil => this (List.append_eq_nil.1 hnil).1
  | delivery =>
      have hmem : x ∈ (reqs.filter (fun r => r.rtype = RType.delivery)).filter
          (fun r => r.size = "large") := by
        simp [List.mem_filter, hx, hr, hs]
      by_cases hp : phasePick "large" c.large reqs = []
      · have hlen : (phasePick "large" c.large reqs).length = 0 := by rw [hp]; rfl
        have : phaseDel "large" (c.large - (phasePick "large" c.large reqs).length) reqs ≠ [] := by
          rw [hlen, Nat.sub_zero]
          exact take_ne_nil_of hc (List.ne_nil_of_mem hmem)
        exact fun hnil => this (List.append_eq_nil.1 hnil).2
      · exact fun hnil => hp (List.append_eq_nil.1 hnil).1

/-- Any pool containing a request of a recognised size class is
packable: `pack_truck` returns a non-empty load. -/
theorem pack_truck_isSome_of_valid {reqs : List Request} {x : Request}
    (hx : x ∈ reqs)
    (hs : x.size = "small" ∨ x.size = "medium" ∨ x.size = "large") :
    ∃ load c, pack_truck reqs = some (load, c) := by
  have hne : pack_truck reqs ≠ none := by
    intro hnone
    have hall := (packGo_none_iff reqs truck_configs).1 hnone
    rcases hs with hs | hs | hs
    · exact fillTruck_ne_nil_small (c := ⟨3, 0, 0⟩) (by decide) hx hs
        (hall ⟨3, 0, 0⟩ (by simp [truck_configs]))
    · exact fillTruck_ne_nil_medium (c := ⟨2, 1, 0⟩) (by decide) hx hs
        (hall ⟨2, 1, 0⟩ (by simp [truck_configs]))
    · exact fillTruck_ne_nil_large (c := ⟨0, 0, 1⟩) (by decide) hx hs
        (hall ⟨0, 0, 1⟩ (by simp [truck_configs]))
  cases hp : pack_truck reqs with
  | none => exact absurd hp hne
  | some lc => exact ⟨lc.1, lc.2, by simp [hp]⟩

/-- Every item of a fill comes from the pool. -/
theorem mem_reqs_of_mem_fillTruck {c : Config} {reqs : List Request} {x : Request}
    (hx : x ∈ fillTruck c reqs) : x ∈ reqs := by
  rw [fillTruck_eq] at hx
  simp only [List.mem_append] at hx
  rcases hx with ((((h | h) | h) | h) | h) | h
  · exact (mem_phasePick h).2.1
  · exact (mem_phasePick h).2.1
  · exact (mem_phasePick h).2.1
  · exact (mem_phaseDel h).2.1
  · exact (mem_phaseDel h).2.1
  · exact (mem_phaseDel h).2.1

/-! ## Lemmas about the orchestrator's pool bookkeeping -/

theorem removeAssigned_eq_filter :
    ∀ (load reqs : List Request),
      removeAssigned load reqs =
        reqs.filter (fun r => load.all (fun item => r.id ≠ item.id)) := by
  intro load
  induction load with
  | nil => intro reqs; simp [removeAssigned]
  | cons a load ih =>
      intro reqs
      have h1 : removeAssigned (a :: load) reqs =
          removeAssigned load (reqs.filter (fun r => r.id ≠ a.id)) := rfl
      rw [h1, ih, List.filter_filter]
      congr 1
      funext r
      simp [List.all_cons, Bool.and_comm]

theorem mem_of_mem_removeAssigned {load reqs : List Request} {r' : Request}
    (h : r' ∈ removeAssigned load reqs) : r' ∈ reqs := by
  rw [removeAssigned_eq_filter] at h
  exact (List.mem_filter.1 h).1

theorem not_mem_removeAssigned {load reqs : List Request} {r r' : Request}
    (hr : r ∈ load) (hid : r'.id = r.id) : r' ∉ removeAssigned load reqs := by
  rw [removeAssigned_eq_filter]
  intro hmem
  have hall := (List.mem_filter.1 hmem).2
  rw [List.all_eq_true] at hall
  have := hall r hr
  simp [hid] at this

theorem length_filter_lt_of_mem {α : Type} (p : α → Bool) :
    ∀ (l : List α) (x : α), x ∈ l → p x = false → (l.filter p).length < l.length := by
  intro l
  induction l with
  | nil => intro x hx; cases hx
  | cons a l ih =>
      intro x hx hpx
      rcases List.mem_cons.1 hx with rfl | hx
      · rw [List.filter_cons, hpx]
        simp only [Bool.false_eq_true, if_false]
        exact Nat.lt_succ_of_le (List.length_filter_le p l)
      · rw [List.filter_cons]
        cases hpa : p a with
        | true =>
            simp only [if_true, List.length_cons]
            exact Nat.succ_lt_succ (ih x hx hpx)
        | false =>
            simp only [Bool.false_eq_true, if_false]
            exact Nat.lt_succ_of_lt (ih x hx hpx)

theorem length_removeAssigned_lt {load reqs : List Request} {x : Request}
    (hxl : x ∈ load) (hxr : x ∈ reqs) :
    (removeAssigned load reqs).length < reqs.length := by
  rw [removeAssigned_eq_filter]
  apply length_filter_lt_of_mem _ reqs x hxr
  rw [Bool.eq_false_iff]
  intro hc
  rw [List.all_eq_true] at hc
  have := hc x hxl
  simp at this

/-- Progress: on a pool whose size classes are all recognised, each
iteration of the assignment loop strictly shrinks the pool, and the
loop drains it completely. -/
theorem assignLoopFuel_drains :
    ∀ (fuel tid : Nat) (reqs : List Request),
      reqs.length ≤ fuel →
      (∀ r ∈ reqs, r.size = "small" ∨ r.size = "medium" ∨ r.size = "large") →
      (assignLoopFuel fuel tid reqs).2 = [] := by
  intro fuel
  induction fuel with
  | zero =>
      intro tid reqs hlen _
      have : reqs = [] := List.eq_nil_of_length_eq_zero (Nat.le_zero.1 hlen)
      subst this
      rfl
  | succ fuel ih =>
      intro tid reqs hlen hval
      cases reqs with
      | nil => rfl
      | cons r rs =>
          obtain ⟨load, c, hpack⟩ :=
            pack_truck_isSome_of_valid (List.mem_cons_self r rs)
              (hval r (List.mem_cons_self r rs))
          obtain ⟨hfill, _, hne⟩ := packGo_some _ _ _ _ hpack
          have hstep : (assignLoopFuel (fuel + 1) tid (r :: rs)).2 =
              (assignLoopFuel fuel (tid + 1) (removeAssigned load (r :: rs))).2 := by
            simp only [assignLoopFuel, hpack]
          rw [hstep]
          obtain ⟨x, hxl⟩ := List.exists_mem_of_ne_nil load hne
          have hx : x ∈ fillTruck c (r :: rs) := hfill ▸ hxl
          have hxr : x ∈ r :: rs := mem_reqs_of_mem_fillTruck hx
          have hlt : (removeAssigned load (r :: rs)).length < (r :: rs).length :=
            length_removeAssigned_lt hxl hxr
          apply ih
          · omega
          · intro q hq
            exact hval q (mem_of_mem_removeAssigned hq)

/-! ## Lemmas about the route sequencer -/

theorem foldl_choice_mem {α : Type} (f : α → α → α)
    (hf : ∀ b y, f b y = b ∨ f b y = y) :
    ∀ (xs : List α) (x : α), xs.foldl f x ∈ x :: xs := by
  intro xs
  induction xs with
  | nil => intro x; exact List.mem_cons_self x []
  | cons y ys ih =>
      intro x
      simp only [List.foldl_cons]
      rcases hf x y with h1 | h1 <;> rw [h1]
      · rcases List.mem_cons.1 (ih x) with h2 | h2
        · rw [h2]; exact List.mem_cons_self _ _
        · exact List.mem_cons_of_mem _ (List.mem_cons_of_mem _ h2)
      · exact List.mem_cons_of_mem _ (ih y)

theorem selectNearest_mem (pos : ℝ × ℝ) (x : Stop) (xs : List Stop) :
    selectNearest pos x xs ∈ x :: xs := by
  apply foldl_choice_mem
  intro b y
  by_cases h : haversine_distance pos.1 pos.2 y.coordinates.1 y.coordinates.2 <
      haversine_distance pos.1 pos.2 b.coordinates.1 b.coordinates.2
  · exact Or.inr (if_pos h)
  · exact Or.inl (if_neg h)

theorem nnLoop_perm :
    ∀ (fuel : Nat) (pos : ℝ × ℝ) (l : List Stop),
      l.length ≤ fuel → List.Perm (nnLoop fuel pos l) l := by
  intro fuel
  induction fuel with
  | zero =>
      intro pos l h
      have : l = [] := List.eq_nil_of_length_eq_zero (Nat.le_zero.1 h)
      subst this
      simp [nnLoop]
  | succ fuel ih =>
      intro pos l h
      cases l with
      | nil => simp [nnLoop]
      | cons x xs =>
          simp only [nnLoop]
          have hmem : selectNearest pos x xs ∈ x :: xs := selectNearest_mem pos x xs
          have hperm : List.Perm (x :: xs)
              (selectNearest pos x xs :: (x :: xs).erase (selectNearest pos x xs)) :=
            List.perm_cons_erase hmem
          have hlen : ((x :: xs).erase (selectNearest pos x xs)).length = xs.length := by
            rw [List.length_erase_of_mem hmem]
            simp
          have hrec := ih (selectNearest pos x xs).coordinates
            ((x :: xs).erase (selectNearest pos x xs))
            (by rw [hlen]; simpa using Nat.le_of_succ_le_succ h)
          exact (hrec.cons _).trans hperm.symm

theorem nearest_neighbor_route_perm (stops : List Stop) :
    List.Perm (nearest_neighbor_route stops) stops := by
  unfold nearest_neighbor_route
  by_cases h : stops.length ≤ 1
  · rw [if_pos h]
  · rw [if_neg h]
    exact nnLoop_perm stops.length depot stops le_rfl

theorem toStop_stype_ne_depot (r : Request) : (toStop r).stype ≠ StopType.depot := by
  simp only [toStop]
  cases r.rtype <;> simp

/-- The route produced for a non-empty load, in closed form. -/
theorem optimize_route_order_cons (l0 : Request) (ls : List Request) :
    optimize_route_order (l0 :: ls) =
      depotStart ::
        (nearest_neighbor_route (((l0 :: ls).filter (fun r => r.rtype = RType.pickup)).map toStop) ++
          (nearest_neighbor_route (((l0 :: ls).filter (fun r => r.rtype = RType.delivery)).map toStop) ++
            [depotEnd])) := rfl

theorem nonDepotStops_cons_depot (s : Stop) (h : s.stype = StopType.depot)
    (L : List Stop) : nonDepotStops (s :: L) = nonDepotStops L := by
  simp [nonDepotStops, h]

theorem nonDepotStops_append (A B : List Stop) :
    nonDepotStops (A ++ B) = nonDepotStops A ++ nonDepotStops B := by
  simp [nonDepotStops]

theorem nonDepotStops_singleton_depot (s : Stop) (h : s.stype = StopType.depot) :
    nonDepotStops [s] = [] := by
  simp [nonDepotStops, h]

theorem nonDepotStops_optimize (load : List Request) :
    List.Perm (nonDepotStops (optimize_route_order load)) (load.map toStop) := by
  cases load with
  | nil => simp [optimize_route_order, nonDepotStops]
  | cons l0 ls =>
      rw [optimize_route_order_cons]
      have hp := nearest_neighbor_route_perm
        (((l0 :: ls).filter (fun r => r.rtype = RType.pickup)).map toStop)
      have hd := nearest_neighbor_route_perm
        (((l0 :: ls).filter (fun r => r.rtype = RType.delivery)).map toStop)
      have hfp : ∀ x ∈ nearest_neighbor_route
          (((l0 :: ls).filter (fun r => r.rtype = RType.pickup)).map toStop),
          x.stype ≠ StopType.depot := by
        intro x hx
        have := hp.mem_iff.1 hx
        obtain ⟨r, _, rfl⟩ := List.mem_map.1 this
        exact toStop_stype_ne_depot r
      have hfd : ∀ x ∈ nearest_neighbor_route
          (((l0 :: ls).filter (fun r => r.rtype = RType.delivery)).map toStop),
          x.stype ≠ StopType.depot := by
        intro x hx
        have := hd.mem_iff.1 hx
        obtain ⟨r, _, rfl⟩ := List.mem_map.1 this
        exact toStop_stype_ne_depot r
      have hnd : nonDepotStops (depotStart ::
          (nearest_neighbor_route (((l0 :: ls).filter (fun r => r.rtype = RType.pickup)).map toStop) ++
            (nearest_neighbor_route (((l0 :: ls).filter (fun r => r.rtype = RType.delivery)).map toStop) ++
              [depotEnd]))) =
          nearest_neighbor_route (((l0 :: ls).filter (fun r => r.rtype = RType.pickup)).map toStop) ++
          nearest_neighbor_route (((l0 :: ls).filter (fun r => r.rtype = RType.delivery)).map toStop) := by
        rw [nonDepotStops_cons_depot depotStart rfl, nonDepotStops_append,
            nonDepotStops_append, nonDepotStops_singleton_depot depotEnd rfl,
            List.append_nil]
        rw [show nonDepotStops (nearest_neighbor_route
              (((l0 :: ls).filter (fun r => r.rtype = RType.pickup)).map toStop)) =
            nearest_neighbor_route (((l0 :: ls).filter (fun r => r.rtype = RType.pickup)).map toStop)
          from List.filter_eq_self.2 (fun x hx => by simpa using hfp x hx)]
        rw [show nonDepotStops (nearest_neighbor_route
              (((l0 :: ls).filter (fun r => r.rtype = RType.delivery)).map toStop)) =
            nearest_neighbor_route (((l0 :: ls).filter (fun r => r.rtype = RType.delivery)).map toStop)
          from List.filter_eq_self.2 (fun x hx => by simpa using hfd x hx)]
      rw [hnd]
      have happ := hp.append hd
      apply happ.trans
      rw [← List.map_append]
      apply List.Perm.map
      have hq : (l0 :: ls).filter (fun r => r.rtype = RType.delivery) =
          (l0 :: ls).filter (fun r => !(decide (r.rtype = RType.pickup))) := by
        apply List.filter_congr
        intro r _
        cases r.rtype <;> simp
      rw [hq]
      exact List.filter_append_perm _ _

/-! ## Lemmas about the metrics calculator -/

theorem foldl_metricsStep (l : List (Stop × Stop)) :
    ∀ a b : ℝ,
      l.foldl metricsStep (a, b) =
        (a + (l.map (fun pr =>
            haversine_distance pr.1.coordinates.1 pr.1.coordinates.2
              pr.2.coordinates.1 pr.2.coordinates.2)).sum,
         b + (l.map (fun pr =>
            haversine_distance pr.1.coordinates.1 pr.1.coordinates.2
              pr.2.coordinates.1 pr.2.coordinates.2 * 2.5 + serviceOf pr.2)).sum) := by
  induction l with
  | nil => intro a b; simp
  | cons p l ih =>
      intro a b
      simp only [List.foldl_cons, List.map_cons, List.sum_cons]
      rw [show metricsStep (a, b) p =
          (a + haversine_distance p.1.coordinates.1 p.1.coordinates.2
            p.2.coordinates.1 p.2.coordinates.2,
           b + serviceOf p.2 + haversine_distance p.1.coordinates.1 p.1.coordinates.2
            p.2.coordinates.1 p.2.coordinates.2 * 2.5) from rfl]
      rw [ih]
      exact Prod.ext (by ring) (by ring)

/-! ## Lemmas about the distance calculator -/

theorem sin_sq_swap (x y : ℝ) :
    Real.sin ((x - y) / 2) ^ 2 = Real.sin ((y - x) / 2) ^ 2 := by
  rw [show (x - y) / 2 = -((y - x) / 2) by ring, Real.sin_neg, neg_sq]

theorem haversine_symm (lat1 lon1 lat2 lon2 : ℝ) :
    haversine_distance lat1 lon1 lat2 lon2 = haversine_distance lat2 lon2 lat1 lon1 := by
  simp only [haversine_distance]
  rw [sin_sq_swap (radiansOf lat2) (radiansOf lat1),
      sin_sq_swap (radiansOf lon2) (radiansOf lon1),
      mul_comm (Real.cos (radiansOf lat1)) (Real.cos (radiansOf lat2))]

theorem haversine_self (lat lon : ℝ) :
    haversine_distance lat lon lat lon = 0 := by
  simp [haversine_distance]

theorem radiansOf_ninety : radiansOf 90 = Real.pi / 2 := by
  unfold radiansOf; ring

/-! ## Lemmas about the daily scheduler -/

theorem acceptLoop_length (maxD : Nat) :
    ∀ (rows acc : List Pref) (seen : List String),
      acc.length ≤ maxD → (acceptLoop maxD rows acc seen).length ≤ maxD := by
  intro rows
  induction rows with
  | nil => intro acc seen h; exact h
  | cons r rest ih =>
      intro acc seen h
      simp only [acceptLoop]
      by_cases hguard : maxD ≤ acc.length
      · rw [if_pos hguard]; exact h
      · rw [if_neg hguard]
        by_cases hmem : r.client_name ∈ seen
        · rw [if_pos hmem]; exact ih acc seen h
        · rw [if_neg hmem]
          apply ih
          simp only [List.length_append, List.length_cons, List.length_nil]
          omega

theorem acceptLoop_sublist (maxD : Nat) :
    ∀ (rows acc : List Pref) (seen : List String),
      ∃ t, acceptLoop maxD rows acc seen = acc ++ t ∧ t.Sublist rows := by
  intro rows
  induction rows with
  | nil => intro acc seen; exact ⟨[], by simp [acceptLoop]⟩
  | cons r rest ih =>
      intro acc seen
      simp only [acceptLoop]
      by_cases hguard : maxD ≤ acc.length
      · rw [if_pos hguard]; exact ⟨[], by simp⟩
      · rw [if_neg hguard]
        by_cases hmem : r.client_name ∈ seen
        · rw [if_pos hmem]
          obtain ⟨t, h1, h2⟩ := ih acc seen
          exact ⟨t, h1, h2.cons r⟩
        · rw [if_neg hmem]
          obtain ⟨t, h1, h2⟩ := ih (acc ++ [r]) (r.client_name :: seen)
          exact ⟨r :: t, by rw [h1]; simp, h2.cons₂ r⟩

theorem acceptLoop_nodup (maxD : Nat) :
    ∀ (rows acc : List Pref) (seen : List String),
      (acc.map Pref.client_name).Nodup →
      (∀ p ∈ acc, p.client_name ∈ seen) →
      ((acceptLoop maxD rows acc seen).map Pref.client_name).Nodup := by
  intro rows
  induction rows with
  | nil => intro acc seen h _; exact h
  | cons r rest ih =>
      intro acc seen hnd hsub
      simp only [acceptLoop]
      by_cases hguard : maxD ≤ acc.length
      · rw [if_pos hguard]; exact hnd
      · rw [if_neg hguard]
        by_cases hmem : r.client_name ∈ seen
        · rw [if_pos hmem]; exact ih acc seen hnd hsub
        · rw [if_neg hmem]
          apply ih
          · rw [List.map_append, List.map_singleton]
            apply List.Nodup.append hnd (List.nodup_singleton _)
            intro a ha hb
            rw [List.mem_singleton] at hb
            subst hb
            obtain ⟨p, hp, hpc⟩ := List.mem_map.1 ha
            exact hmem (hpc ▸ hsub p hp)
          · intro p hp
            rcases List.mem_append.1 hp with hp | hp
            · exact List.mem_cons_of_mem _ (hsub p hp)
            · rw [List.mem_singleton] at hp
              subst hp
              exact List.mem_cons_self _ _

theorem selectDaily_length (prefs : List Pref) (d : String) :
    (selectDaily prefs d).length ≤ max_deliveries_per_day := by
  unfold selectDaily
  cases hf : prefs.filter (fun p => p.preferred_date = d) with
  | nil => simp
  | cons q qs => exact acceptLoop_length _ _ [] [] (Nat.zero_le _)

theorem selectDaily_sublist_sort (prefs : List Pref) (d : String) :
    (selectDaily prefs d).Sublist
      (List.insertionSort rankLE (prefs.filter (fun p => p.preferred_date = d))) := by
  unfold selectDaily
  cases hf : prefs.filter (fun p => p.preferred_date = d) with
  | nil => simp
  | cons q qs =>
      obtain ⟨t, h1, h2⟩ := acceptLoop_sublist max_deliveries_per_day
        (List.insertionSort rankLE (q :: qs)) [] []
      show (acceptLoop max_deliveries_per_day
        (List.insertionSort rankLE (q :: qs)) [] []).Sublist
        (List.insertionSort rankLE (q :: qs))
      rw [h1]
      simpa using h2

theorem selectDaily_sorted (prefs : List Pref) (d : String) :
    List.Sorted rankLE (selectDaily prefs d) :=
  (List.sorted_insertionSort rankLE _).sublist (selectDaily_sublist_sort prefs d)

theorem selectDaily_mem {prefs : List Pref} {d : String} {p : Pref}
    (hp : p ∈ selectDaily prefs d) : p ∈ prefs ∧ p.preferred_date = d := by
  have h1 := (selectDaily_sublist_sort prefs d).mem hp
  have h2 := (List.perm_insertionSort rankLE
    (prefs.filter (fun q => q.preferred_date = d))).mem_iff.1 h1
  have h3 := List.mem_filter.1 h2
  exact ⟨h3.1, by simpa using h3.2⟩

theorem selectDaily_nodup (prefs : List Pref) (d : String) :
    ((selectDaily prefs d).map Pref.client_name).Nodup := by
  unfold selectDaily
  cases hf : prefs.filter (fun p => p.preferred_date = d) with
  | nil => simp
  | cons q qs =>
      exact acceptLoop_nodup _ _ [] [] (by simp) (by simp)

theorem schedSelectNearest_mem (pos : ℝ × ℝ) (x : Pref) (xs : List Pref) :
    schedSelectNearest pos x xs ∈ x :: xs := by
  apply foldl_choice_mem
  intro b y
  by_cases h : great_circle_miles pos (prefCoords y) < great_circle_miles pos (prefCoords b)
  · exact Or.inr (if_pos h)
  · exact Or.inl (if_neg h)

theorem schedNNLoop_perm :
    ∀ (fuel : Nat) (pos : ℝ × ℝ) (l : List Pref),
      l.length ≤ fuel → List.Perm (schedNNLoop fuel pos l) l := by
  intro fuel
  induction fuel with
  | zero =>
      intro pos l h
      have : l = [] := List.eq_nil_of_length_eq_zero (Nat.le_zero.1 h)
      subst this
      simp [schedNNLoop]
  | succ fuel ih =>
      intro pos l h
      cases l with
      | nil => simp [schedNNLoop]
      | cons x xs =>
          simp only [schedNNLoop]
          have hmem : schedSelectNearest pos x xs ∈ x :: xs := schedSelectNearest_mem pos x xs
          have hperm : List.Perm (x :: xs)
              (schedSelectNearest pos x xs :: (x :: xs).erase (schedSelectNearest pos x xs)) :=
            List.perm_cons_erase hmem
          have hlen : ((x :: xs).erase (schedSelectNearest pos x xs)).length = xs.length := by
            rw [List.length_erase_of_mem hmem]
            simp
          have hrec := ih (prefCoords (schedSelectNearest pos x xs))
            ((x :: xs).erase (schedSelectNearest pos x xs))
            (by rw [hlen]; simpa using Nat.le_of_succ_le_succ h)
          exact (hrec.cons _).trans hperm.symm

theorem optimize_delivery_route_perm (deliveries : List Pref) :
    List.Perm (optimize_delivery_route deliveries) deliveries := by
  unfold optimize_delivery_route
  by_cases h : deliveries.length ≤ 1
  · rw [if_pos h]
  · rw [if_neg h]
    exact schedNNLoop_perm deliveries.length warehouse deliveries le_rfl

theorem getLast?_cons_append_concat (x y : Stop) (A B : List Stop) :
    (x :: (A ++ (B ++ [y]))).getLast? = some y := by
  rw [show x :: (A ++ (B ++ [y])) = (x :: (A ++ B)) ++ [y] by simp]
  exact List.getLast?_concat _

/-! ## Claim theorems -/

/-- C1: for every pending pool in which every request's size class is
one of small, medium, or large, the orchestrator's assignment loop
terminates (it is a total function by construction, with fuel that is
provably sufficient) and the final pending pool is empty. -/
theorem claim_C1_assign_all_drains (pending : List Request)
    (h : ∀ r ∈ pending, r.size = "small" ∨ r.size = "medium" ∨ r.size = "large") :
    (assign_all_routes pending).2 = [] :=
  assignLoopFuel_drains pending.length 1 pending le_rfl h

theorem claim_C1_witness :
    (∀ r ∈ c1pool, r.size = "small" ∨ r.size = "medium" ∨ r.size = "large") ∧
    (assign_all_routes c1pool).2 = [] :=
  ⟨by decide, claim_C1_assign_all_drains c1pool (by decide)⟩

/-- C2: every load returned by the packer respects its chosen
configuration's slot counts per size class. -/
theorem claim_C2_pack_respects_capacity (reqs load : List Request) (c : Config)
    (h : pack_truck reqs = some (load, c)) :
    countSize "small" load ≤ c.small ∧ countSize "medium" load ≤ c.medium ∧
      countSize "large" load ≤ c.large := by
  obtain ⟨hfill, _, _⟩ := packGo_some reqs truck_configs load c h
  rw [hfill]
  exact ⟨countSize_fillTruck_small c reqs, countSize_fillTruck_medium c reqs,
    countSize_fillTruck_large c reqs⟩

theorem claim_C2_witness :
    pack_truck c2pool = some ([c2reqA], ⟨3, 0, 0⟩) ∧
    (countSize "small" [c2reqA] ≤ 3 ∧ countSize "medium" [c2reqA] ≤ 0 ∧
      countSize "large" [c2reqA] ≤ 0) :=
  ⟨by decide, claim_C2_pack_respects_capacity c2pool [c2reqA] ⟨3, 0, 0⟩ (by decide)⟩

/-- C3: the packer is first-fit over the fixed configuration order —
whenever the first configuration yields a non-empty fill, that fill is
returned immediately — and on the scenario pool
`[{small,pickup},{small,pickup},{medium,delivery}]` it returns exactly
the two small pickups under the first configuration `(3,0,0)`, leaving
the medium delivery pending. -/
theorem claim_C3_first_fit :
    (∀ reqs : List Request, fillTruck ⟨3, 0, 0⟩ reqs ≠ [] →
      pack_truck reqs = some (fillTruck ⟨3, 0, 0⟩ reqs, ⟨3, 0, 0⟩)) ∧
    pack_truck c3pool = some ([c3req1, c3req2], ⟨3, 0, 0⟩) := by
  constructor
  · intro reqs h
    show packGo reqs truck_configs = _
    rw [show truck_configs = ⟨3, 0, 0⟩ :: [⟨2, 1, 0⟩, ⟨0, 2, 0⟩, ⟨0, 0, 1⟩] from rfl]
    exact packGo_first reqs ⟨3, 0, 0⟩ _ h
  · decide

theorem claim_C3_witness :
    fillTruck ⟨3, 0, 0⟩ c3pool ≠ [] ∧
    pack_truck c3pool = some (fillTruck ⟨3, 0, 0⟩ c3pool, ⟨3, 0, 0⟩) :=
  ⟨by decide, claim_C3_first_fit.1 c3pool (by decide)⟩

/-- C4 (counterexample): on the pool containing only an
unassignable-size request, the orchestrator terminates at once but its
result — the returned truck list — is empty: the stranded request is
not surfaced anywhere in the result, contradicting the claim that the
stranded list is reported in it. -/
theorem claim_C4_counterexample :
    assign_all_routes [c4bad] = ([], [c4bad]) := rfl

/-- C4 (amended): whenever the packer returns an empty load on a
non-empty pending pool, the orchestrator terminates the assignment
pass immediately; the stranded requests remain only in the loop's
internal pending state, and the returned list of vehicle loads is
empty — they are not reported in the result. -/
theorem claim_C4_amended (fuel tid : Nat) (pending : List Request)
    (h1 : pending ≠ []) (h2 : pack_truck pending = none) :
    assignLoopFuel (fuel + 1) tid pending = ([], pending) ∧
    assign_all_routes pending = ([], pending) := by
  cases pending with
  | nil => exact absurd rfl h1
  | cons r rs =>
      constructor
      · simp only [assignLoopFuel, h2]
      · show assignLoopFuel (r :: rs).length 1 (r :: rs) = ([], r :: rs)
        rw [List.length_cons]
        simp only [assignLoopFuel, h2]

theorem claim_C4_witness :
    ([c4bad] ≠ ([] : List Request)) ∧ pack_truck [c4bad] = none ∧
    (assignLoopFuel 1 1 [c4bad] = ([], [c4bad]) ∧
      assign_all_routes [c4bad] = ([], [c4bad])) :=
  ⟨by decide, by decide, claim_C4_amended 0 1 [c4bad] (by decide) (by decide)⟩

/-- C5: an empty load sequences to an empty route; a non-empty load
sequences to a route that begins with the depot-start stop, ends with
the depot-end stop, and whose non-depot stops are exactly the load's
(coordinate-enriched) stops, each with its multiplicity — in
particular duplicate-free loads give duplicate-free non-depot stops. -/
theorem claim_C5_route_shape (load : List Request) :
    (load = [] → optimize_route_order load = []) ∧
    (load ≠ [] →
      (optimize_route_order load).head? = some depotStart ∧
      (optimize_route_order load).getLast? = some depotEnd ∧
      List.Perm (nonDepotStops (optimize_route_order load)) (load.map toStop) ∧
      ((load.map toStop).Nodup → (nonDepotStops (optimize_route_order load)).Nodup)) := by
  constructor
  · intro h; subst h; rfl
  · intro h
    cases load with
    | nil => exact absurd rfl h
    | cons l0 ls =>
        refine ⟨?_, ?_, nonDepotStops_optimize _, ?_⟩
        · rw [optimize_route_order_cons]; rfl
        · rw [optimize_route_order_cons]
          exact getLast?_cons_append_concat _ _ _ _
        · intro hnd
          exact (nonDepotStops_optimize (l0 :: ls)).nodup_iff.2 hnd

theorem claim_C5_witness :
    ([c5req] ≠ ([] : List Request)) ∧
    ((optimize_route_order [c5req]).head? = some depotStart ∧
     (optimize_route_order [c5req]).getLast? = some depotEnd ∧
     List.Perm (nonDepotStops (optimize_route_order [c5req])) ([c5req].map toStop) ∧
     (([c5req].map toStop).Nodup → (nonDepotStops (optimize_route_order [c5req])).Nodup)) :=
  ⟨by decide, (claim_C5_route_shape [c5req]).2 (by decide)⟩

/-- C6: for every route, the metrics calculator returns total distance
equal to the sum of leg (haversine) distances over consecutive stop
pairs, and total time equal to 2.5 minutes per mile on every segment
plus the per-arrival service time (30 at pickups, 20 at deliveries, 0
at depot stops). -/
theorem claim_C6_metrics_formula (route : List Stop) :
    calculate_route_metrics route = (specTotalDistance route, specTotalTime route) := by
  unfold calculate_route_metrics specTotalDistance specTotalTime
  rw [foldl_metricsStep]
  simp

/-- C7: the daily capacity scheduler accepts at most
`max_deliveries_per_day` deliveries, for pairwise-distinct clients,
scanning date-matching requests in ascending preference-rank order
(the selection is a rank-sorted sublist of the sorted candidates and
the emitted route is a permutation of the selection); in the scenario
with six distinct-client candidates of ranks `[1,1,1,2,2,3]` it
accepts the three rank-1 candidates and one rank-2 candidate. -/
theorem claim_C7_daily_scheduler (prefs : List Pref) (d : String) :
    ((selectDaily prefs d).length ≤ max_deliveries_per_day ∧
     ((selectDaily prefs d).map Pref.client_name).Nodup ∧
     List.Sorted rankLE (selectDaily prefs d) ∧
     (∀ p ∈ selectDaily prefs d, p ∈ prefs ∧ p.preferred_date = d) ∧
     List.Perm (schedule_daily_deliveries prefs d) (selectDaily prefs d)) ∧
    ((selectDaily scenPrefs scenDate).map Pref.preference_rank = [1, 1, 1, 2] ∧
     scen1 ∈ selectDaily scenPrefs scenDate ∧
     scen2 ∈ selectDaily scenPrefs scenDate ∧
     scen3 ∈ selectDaily scenPrefs scenDate ∧
     (selectDaily scenPrefs scenDate).length = 4) :=
  ⟨⟨selectDaily_length prefs d, selectDaily_nodup prefs d, selectDaily_sorted prefs d,
    fun _ hp => selectDaily_mem hp, optimize_delivery_route_perm (selectDaily prefs d)⟩,
   by decide⟩

/-- C8 (counterexample): the haversine distance is zero at the pair of
distinct coordinate pairs `(90, 0)` and `(90, 180)` (both at the north
pole), so "distance is zero only if the coordinate pairs are equal"
fails. -/
theorem claim_C8_counterexample :
    haversine_distance 90 0 90 180 = 0 ∧
      ((90 : ℝ), (0 : ℝ)) ≠ ((90 : ℝ), (180 : ℝ)) := by
  constructor
  · simp only [haversine_distance, radiansOf_ninety]
    rw [sub_self, zero_div, Real.sin_zero, Real.cos_pi_div_two]
    norm_num
  · intro h
    have h2 := congrArg Prod.snd h
    norm_num at h2

/-- C8 (amended): the distance calculator is symmetric and vanishes on
equal coordinate pairs; zero distance does not imply equality of the
coordinate pairs (it fails at the poles and at longitudes 360° apart). -/
theorem claim_C8_amended (lat1 lon1 lat2 lon2 : ℝ) :
    haversine_distance lat1 lon1 lat2 lon2 = haversine_distance lat2 lon2 lat1 lon1 ∧
    haversine_distance lat1 lon1 lat1 lon1 = 0 :=
  ⟨haversine_symm lat1 lon1 lat2 lon2, haversine_self lat1 lon1⟩

/-- C9 (counterexample): two distinct pool entries with the same id
are both packed into the same returned vehicle load, so "the other is
never placed in any vehicle load" fails. -/
theorem claim_C9_counterexample :
    c9dup1 ≠ c9dup2 ∧ c9dup1.id = c9dup2.id ∧
    pack_truck [c9dup1, c9dup2] = some ([c9dup1, c9dup2], ⟨3, 0, 0⟩) ∧
    removeAssigned [c9dup1, c9dup2] [c9dup1, c9dup2] = [] := by
  refine ⟨by decide, by decide, by decide, by decide⟩

/-- C9 (amended): after an iteration the pending pool consists exactly
of the requests whose id differs from every id in the assigned load;
consequently a pool entry sharing an id with any assigned item is
removed from the pool (and can never be assigned in a later
iteration), though it may have been packed into the same load in the
same iteration. -/
theorem claim_C9_amended (load reqs : List Request) :
    removeAssigned load reqs =
      reqs.filter (fun r => load.all (fun item => r.id ≠ item.id)) ∧
    (∀ r' ∈ reqs, ∀ r ∈ load, r'.id = r.id → r' ∉ removeAssigned load reqs) :=
  ⟨removeAssigned_eq_filter load reqs,
   fun _ _ _ hr hid => not_mem_removeAssigned hr hid⟩

theorem claim_C9_witness :
    (c9dup2 ∈ [c9dup1, c9dup2] ∧ c9dup1 ∈ [c9dup1] ∧ c9dup2.id = c9dup1.id) ∧
    c9dup2 ∉ removeAssigned [c9dup1] [c9dup1, c9dup2] :=
  ⟨by decide,
   (claim_C9_amended [c9dup1] [c9dup1, c9dup2]).2 c9dup2 (by decide) c9dup1
     (by decide) (by decide)⟩

/-- C10: the metrics calculator on any route with fewer than two stops
returns total distance 0 and total time 0 (and, being a total
function, raises no error). -/
theorem claim_C10_short_route (route : List Stop) (h : route.length < 2) :
    calculate_route_metrics route = (0, 0) := by
  cases route with
  | nil => rfl
  | cons x xs =>
      cases xs with
      | nil => rfl
      | cons y ys => simp at h; omega

theorem claim_C10_witness :
    (([] : List Stop).length < 2) ∧ calculate_route_metrics [] = (0, 0) :=
  ⟨by decide, claim_C10_short_route [] (by decide)⟩

end TFP
